import Mathlib

/-
Verification of the hono-electron IPC / CQRS pattern repository.

Shallow embedding of:
- createEventSubscription (event-subscription multiplexer, EVENT-SUBSCRIPTION.md)
- logsAtom (append-only logs atom, hybrid-atom example)
- EventServiceImpl.create / update (CQRS commands, observable-pattern doc)
- debounce (SERVICE-INTERFACE.md) together with onMount unsubscription
- firstValueFromResult (ERROR-HANDLING.md complete utility implementation)
- serializeHeader and the hono-rpc-electron IPC round trip
- useOptimisticValue (timestamp-based optimistic update hook)
-/

namespace HonoElectron

/-!
## Event Subscription Multiplexer (createEventSubscription)

Source (EVENT-SUBSCRIPTION.md):
- state: `root` (cleanup functions from ipcRenderer.on) and `subscriptions`
  (a Set of callbacks);
- subscribe(callback): if subscriptions.size < 1 then push one ipcRenderer.on
  registration onto root; subscriptions.add(callback); returns an unsubscribe
  closure;
- the unsubscribe closure: subscriptions.delete(callback); if
  subscriptions.size < 1 then call every cleanup in root and set
  root.length = 0.

Callbacks are identified by numbers (JS Set semantics: adding a present
element and deleting an absent element are no-ops). `listeners` is the number
of registered underlying IPC listeners (root.length).
-/

structure SubState where
  subs : Finset Nat
  listeners : Nat
deriving DecidableEq

def SubState.init : SubState := ⟨∅, 0⟩

def SubState.subscribe (s : SubState) (cb : Nat) : SubState :=
  { subs := insert cb s.subs
    listeners := if s.subs.card < 1 then s.listeners + 1 else s.listeners }

def SubState.unsubscribe (s : SubState) (cb : Nat) : SubState :=
  if (s.subs.erase cb).card < 1 then { subs := s.subs.erase cb, listeners := 0 }
  else { subs := s.subs.erase cb, listeners := s.listeners }

inductive SubOp where
  | sub (cb : Nat)
  | unsub (cb : Nat)
deriving DecidableEq

def applyOp (s : SubState) (op : SubOp) : SubState :=
  match op with
  | .sub cb => s.subscribe cb
  | .unsub cb => s.unsubscribe cb

def runOps (ops : List SubOp) : SubState := ops.foldl applyOp SubState.init

/-- Invariant tying the underlying listener count to the subscriber set. -/
def SubInv (s : SubState) : Prop :=
  s.listeners = if s.subs.Nonempty then 1 else 0

/-!
## Append-only logs atom (logsAtom)

Source (hybrid-atom example): on each incoming log event,
`set((prev) => [log, ...prev].slice(0, 1000))`.
-/

def logsStep (prev : List Nat) (log : Nat) : List Nat := (log :: prev).take 1000

def runLogs (events : List Nat) : List Nat := events.foldl logsStep []

/-!
## CQRS commands (EventServiceImpl.create / EventServiceImpl.update)

Source (observable-pattern doc):
- `#notify = new BehaviorSubject(Date.now())`, advanced by `#notify.next(...)`;
- `#notifier = new Subject(...)` for granular snapshots;
- `create(data)` runs `#closeExistingActiveEvent()` first, `.andThen` runs
  `#createEvent(data)`, `.andTee(notify)` advances the BehaviorSubject only
  when the whole chain succeeded;
- `update(data)` runs `#updateEvent(data)` and on success advances both
  `#notify` and `#notifier`.

The database effects of the private steps are booleans on the state; each
step either succeeds (applying its effect) or fails (leaving the state as it
was and short-circuiting the neverthrow chain). The pair's boolean is the
Result: true for ok, false for err.
-/

structure EventState where
  activeClosed : Bool
  eventCreated : Bool
  eventUpdated : Bool
  notifyCount : Nat
  snapshotCount : Nat
deriving DecidableEq

def EventState.start : EventState := ⟨false, false, false, 0, 0⟩

inductive StepOutcome where
  | success
  | failure
deriving DecidableEq

def createCmd (closeOutcome createOutcome : StepOutcome) (s : EventState) :
    EventState × Bool :=
  match closeOutcome with
  | .failure => (s, false)
  | .success =>
    let s₁ := { s with activeClosed := true }
    match createOutcome with
    | .failure => (s₁, false)
    | .success =>
      let s₂ := { s₁ with eventCreated := true }
      ({ s₂ with notifyCount := s₂.notifyCount + 1 }, true)

def updateCmd (updateOutcome : StepOutcome) (s : EventState) :
    EventState × Bool :=
  match updateOutcome with
  | .failure => (s, false)
  | .success =>
    let s₁ := { s with eventUpdated := true }
    ({ s₁ with
        notifyCount := s₁.notifyCount + 1
        snapshotCount := s₁.snapshotCount + 1 }, true)

/-!
## Debounce (SERVICE-INTERFACE.md) and onMount unsubscription

Source debounce: each call clears any pending timer (`clearTimeout`) and
schedules `fn(args)` at `now + delay` (`setTimeout`). Modeled over a
time-ordered list of calls: the timer of a call fires (at its time plus the
delay) unless the next call arrives strictly before that deadline.

The onMount cleanup returns only the multiplexer unsubscribe function, which
releases the underlying listener; nothing cancels a pending debounce timer.
So after the unmount time only the calls delivered strictly before unmount
exist, but the timers they scheduled still run.
-/

def debounceFires (delay : Nat) : List (Nat × Nat) → List (Nat × Nat)
  | [] => []
  | [(t, a)] => [(t + delay, a)]
  | (t, a) :: (t₂, a₂) :: rest =>
    (if t + delay ≤ t₂ then [(t + delay, a)] else []) ++
      debounceFires delay ((t₂, a₂) :: rest)

/-- Calls delivered to the debounced handler: the unsubscribe in
createEventSubscription removes the IPC listener at the unmount time, so only
signals strictly before it reach the handler. -/
def deliveredCalls (signals : List (Nat × Nat)) (unmountAt : Nat) :
    List (Nat × Nat) :=
  signals.filter (fun p => p.1 < unmountAt)

/-- Refetches that execute at or after the unmount time: fires of the timers
scheduled by delivered signals, restricted to times at or after unmount. -/
def lateRefetches (delay : Nat) (signals : List (Nat × Nat)) (unmountAt : Nat) :
    List (Nat × Nat) :=
  (debounceFires delay (deliveredCalls signals unmountAt)).filter
    (fun f => unmountAt ≤ f.1)

/-!
## useOptimisticValue (timestamp-based optimistic update hook)

Source:
- `real = useMemo(() => (\x7b ts: Date.now(), value: realValue \x7d), [realValue])`:
  recomputed only when realValue changes;
- `[optimistic, setOptimistic] = useState(real)`;
- `value = real.ts > optimistic.ts ? real.value : optimistic.value`;
- `updateOptimistically(newValue)` sets the optimistic pair to
  `\x7b ts: Date.now(), value: newValue \x7d` and fires `void onUpdate(newValue)`;
  the hook never observes the promise's failure.
-/

structure TimestampedValue where
  ts : Nat
  value : String
deriving DecidableEq

structure OptimisticState where
  real : TimestampedValue
  optimistic : TimestampedValue
deriving DecidableEq

def initOptimistic (t₀ : Nat) (realValue : String) : OptimisticState :=
  { real := ⟨t₀, realValue⟩, optimistic := ⟨t₀, realValue⟩ }

def updateOptimistically (now : Nat) (newValue : String)
    (s : OptimisticState) : OptimisticState :=
  { s with optimistic := ⟨now, newValue⟩ }

/-- A failed onUpdate is invisible to the hook: no state of the hook changes,
and with realValue unchanged the useMemo pair on the real side keeps its old
timestamp. -/
def afterFailedUpdate (s : OptimisticState) : OptimisticState := s

def hookValue (s : OptimisticState) : String :=
  if s.optimistic.ts < s.real.ts then s.real.value else s.optimistic.value

/-!
## firstValueFromResult (ERROR-HANDLING.md, complete utility implementation)

Source:
- `DEFAULT_TIMEOUT_MS = 5000`; `timeoutMs = options.timeout ?? DEFAULT_TIMEOUT_MS`;
- the observable is piped through the rxjs timeout operator with that bound
  and consumed with firstValueFrom, optionally with a defaultValue config
  used when the observable completes without emitting;
- a rejection that is an rxjs TimeoutError becomes `new QueryTimeoutError(timeoutMs)`;
  any other rejection becomes `new QueryError(cause)`.

An observable is modeled by what it does first: emit a value at a time, error
at a time, complete empty at a time, or never do anything. The rxjs timeout
operator turns the absence of any of those within the bound into a
TimeoutError rejection.
-/

inductive ObsError where
  | serviceError (msg : String)
  | emptySequence
deriving DecidableEq

inductive ObsOutcome (α : Type) where
  | emitsAt (t : Nat) (v : α)
  | errsAt (t : Nat) (e : ObsError)
  | completesEmptyAt (t : Nat)
  | never

structure QueryOptions (α : Type) where
  timeout : Option Nat := none
  defaultValue : Option α := none

inductive QueryFailure where
  | queryTimeout (timeoutMs : Nat)
  | queryError (cause : ObsError)
deriving DecidableEq

def DEFAULT_TIMEOUT_MS : Nat := 5000

def firstValueFromResult {α : Type} (obs : ObsOutcome α)
    (opts : QueryOptions α) : Except QueryFailure α :=
  let timeoutMs := opts.timeout.getD DEFAULT_TIMEOUT_MS
  match obs with
  | .emitsAt t v =>
    if t < timeoutMs then .ok v else .error (.queryTimeout timeoutMs)
  | .errsAt t e =>
    if t < timeoutMs then .error (.queryError e)
    else .error (.queryTimeout timeoutMs)
  | .completesEmptyAt t =>
    if t < timeoutMs then
      match opts.defaultValue with
      | some d => .ok d
      | none => .error (.queryError .emptySequence)
    else .error (.queryTimeout timeoutMs)
  | .never => .error (.queryTimeout timeoutMs)

/-- The observable produces no emission, error or completion before the
bound: the rxjs timeout operator rejects with its TimeoutError. -/
def emitsNothingWithin (bound : Nat) : ObsOutcome α → Prop
  | .emitsAt t _ => bound ≤ t
  | .errsAt t _ => bound ≤ t
  | .completesEmptyAt t => bound ≤ t
  | .never => True

/-!
## GET /users/:id through the hono-rpc-electron channel

Source route handler (Hono IPC skill, route `.get('/:id')`):
matches on `firstValueFromResult(c.var.services.users.get(id))`; on ok with a
user it returns `c.json(user, 200)`, on ok with undefined
`c.json(\x7b error: 'Not found' \x7d, 404)`, on err `c.json(\x7b error \x7d, 500)`.

Main-process handler: `const res = await callable.request(url, ...);
const data = await res.json(); return \x7b ...res, data \x7d`. Per WebIDL, the
fields of a fetch Response (status, ok, headers, ...) are accessor properties
on Response.prototype, not own enumerable string-keyed properties, so the
object spread contributes no string-keyed fields (and symbol-keyed internal
slots do not survive the structured clone of ipcMain.handle's return value).

Renderer custom fetch: `const \x7b data, ...rest \x7d = await invoke(...);
return Response.json(data, rest)`; Response.json defaults to status 200 when
the init has no status field.
-/

structure User where
  id : String
  name : String
deriving DecidableEq

inductive RespBody where
  | userBody (u : User)
  | errBody (msg : String)
deriving DecidableEq

structure JsResponse where
  status : Nat
  body : RespBody
deriving DecidableEq

def ObsError.message : ObsError → String
  | .serviceError msg => msg
  | .emptySequence => "no elements in sequence"

def QueryFailure.message : QueryFailure → String
  | .queryTimeout ms => "Query timed out after " ++ toString ms ++ "ms"
  | .queryError cause => cause.message

def getUserById (svc : String → ObsOutcome (Option User)) (id : String) :
    JsResponse :=
  match firstValueFromResult (svc id) {} with
  | .ok (some u) => ⟨200, .userBody u⟩
  | .ok none => ⟨404, .errBody "Not found"⟩
  | .error e => ⟨500, .errBody e.message⟩

def ORIGIN : String := "http://internal.localhost"

/-- Drop of a character prefix, written over the underlying character list
(these strings are ASCII, so character and byte positions agree). -/
def dropChars (s : String) (n : Nat) : String := ⟨s.data.drop n⟩

def pathOfUrl (url : String) : String := dropChars url ORIGIN.length

def dispatch (svc : String → ObsOutcome (Option User)) (path : String) :
    JsResponse :=
  if ("/users/").data.isPrefixOf path.data then
    getUserById svc (dropChars path 7)
  else ⟨404, .errBody "404 Not Found"⟩

/-- Own enumerable string-keyed properties picked up by `\x7b ...res \x7d` when
res is a fetch Response: there are none, because Response's fields live as
accessors on Response.prototype. -/
def spreadResponse (_res : JsResponse) : List (String × Nat) := []

structure Envelope where
  rest : List (String × Nat)
  data : RespBody
deriving DecidableEq

def ipcMainHandle (svc : String → ObsOutcome (Option User)) (url : String) :
    Envelope :=
  let res := dispatch svc (pathOfUrl url)
  { rest := spreadResponse res, data := res.body }

/-- Response.json(data, init): status comes from the init when present,
otherwise defaults to 200. -/
def responseJson (data : RespBody) (rest : List (String × Nat)) : JsResponse :=
  { status := (rest.lookup "status").getD 200, body := data }

def clientFetch (svc : String → ObsOutcome (Option User)) (path : String) :
    JsResponse :=
  let env := ipcMainHandle svc (ORIGIN ++ path)
  responseJson env.data env.rest

/-- Scenario service of the spec: get resolves the user for usr_1 and
undefined for any other id, immediately. -/
def usersSvc : String → ObsOutcome (Option User) :=
  fun id => .emitsAt 0 (if id = "usr_1" then some ⟨"usr_1", "Ann"⟩ else none)

/-!
## serializeHeader and the IPC request round trip

Source (client adapter):
`serializeHeader(headers)`: undefined becomes `[]`; a Headers instance
becomes `[...headers.entries()]`; an array is returned as is; a plain object
becomes `Object.entries(headers)` (insertion order).

The main side passes the pair list to `callable.request(url, \x7b method,
headers, body \x7d)`, which builds a fetch Headers from it. Per the Fetch
specification a Headers object iterates its header list after lowercasing
names, sorting by name, and combining duplicate names with ", "; that
canonicalization is `canonEntries`. A Headers instance is represented by its
entries() sequence, which is always canonical.
-/

abbrev HeaderPair := String × String

inductive HeadersInitShape where
  | headersObj (entries : List HeaderPair)
  | pairList (pairs : List HeaderPair)
  | record (fields : List HeaderPair)
deriving DecidableEq

def serializeHeader : Option HeadersInitShape → List HeaderPair
  | none => []
  | some (.headersObj entries) => entries
  | some (.pairList pairs) => pairs
  | some (.record fields) => fields

/-- Lowercasing of a header name, written over the underlying character
list. -/
def lowerString (s : String) : String := ⟨s.data.map Char.toLower⟩

def lowerName (p : HeaderPair) : HeaderPair := (lowerString p.1, p.2)

def insertByName (p : HeaderPair) : List HeaderPair → List HeaderPair
  | [] => [p]
  | q :: rest => if p.1 ≤ q.1 then p :: q :: rest else q :: insertByName p rest

def sortByName : List HeaderPair → List HeaderPair
  | [] => []
  | p :: rest => insertByName p (sortByName rest)

def combinePairs : List HeaderPair → List HeaderPair
  | [] => []
  | [p] => [p]
  | p :: q :: rest =>
    if p.1 = q.1 then combinePairs ((p.1, p.2 ++ ", " ++ q.2) :: rest)
    else p :: combinePairs (q :: rest)
termination_by l => l.length

/-- Entry sequence of a fetch Headers object built from a pair list. -/
def canonEntries (l : List HeaderPair) : List HeaderPair :=
  combinePairs (sortByName (l.map lowerName))

/-- What the entries() sequence of a real Headers instance always satisfies:
names strictly sorted (duplicates already combined) and lowercased. -/
def CanonicalEntries (l : List HeaderPair) : Prop :=
  List.Chain' (fun p q => p.1 < q.1) l ∧ ∀ p ∈ l, lowerString p.1 = p.1

def WellFormedInit : Option HeadersInitShape → Prop
  | some (.headersObj entries) => CanonicalEntries entries
  | _ => True

structure RequestDescriptor where
  url : String
  method : Option String
  headers : Option HeadersInitShape
  body : Option String

/-- The IPC argument tuple built by the custom fetch:
`[url, init?.method, serializeHeader(init?.headers), init?.body]`. -/
def encodeIpcArgs (r : RequestDescriptor) :
    String × Option String × List HeaderPair × Option String :=
  (r.url, r.method, serializeHeader r.headers, r.body)

structure MainRequest where
  path : String
  method : String
  headerEntries : List HeaderPair
  body : Option String
deriving DecidableEq

/-- Main-process view after `callable.request(url, \x7b method, headers,
body \x7d)`: absent method defaults to GET, the pair list becomes a Headers
object (canonical entries), the body crosses unchanged. -/
def decodeIpcArgs
    (a : String × Option String × List HeaderPair × Option String) :
    MainRequest :=
  { path := a.1
    method := a.2.1.getD "GET"
    headerEntries := canonEntries a.2.2.1
    body := a.2.2.2 }

/-- Entry sequence of the headers the renderer-side request itself denotes:
a Headers instance iterates its own entries; a pair list or plain object
denotes the Headers a fetch would build from it. -/
def effectiveEntries : Option HeadersInitShape → List HeaderPair
  | none => []
  | some (.headersObj entries) => entries
  | some (.pairList pairs) => canonEntries pairs
  | some (.record fields) => canonEntries fields

def clientView (r : RequestDescriptor) : MainRequest :=
  { path := r.url
    method := r.method.getD "GET"
    headerEntries := effectiveEntries r.headers
    body := r.body }

/-!
## Lemmas for the multiplexer invariant
-/

theorem subInv_init : SubInv SubState.init := by
  simp [SubInv, SubState.init]

theorem subInv_subscribe {s : SubState} (h : SubInv s) (cb : Nat) :
    SubInv (s.subscribe cb) := by
  unfold SubInv SubState.subscribe
  by_cases hne : s.subs.Nonempty
  · have hcard : ¬ s.subs.card < 1 := by
      have := Finset.card_pos.mpr hne
      omega
    simp only [hcard, if_false]
    rw [SubInv, if_pos hne] at h
    simp [h, Finset.insert_nonempty]
  · have h0 : s.subs = ∅ := Finset.not_nonempty_iff_eq_empty.mp hne
    rw [SubInv, if_neg hne] at h
    simp [h0, h, Finset.insert_nonempty]

theorem subInv_unsubscribe {s : SubState} (h : SubInv s) (cb : Nat) :
    SubInv (s.unsubscribe cb) := by
  unfold SubInv SubState.unsubscribe
  by_cases hc : (s.subs.erase cb).card < 1
  · have h0 : s.subs.erase cb = ∅ := Finset.card_eq_zero.mp (by omega)
    simp [hc, h0]
  · have hne : (s.subs.erase cb).Nonempty := by
      rw [← Finset.card_pos]
      omega
    have hsne : s.subs.Nonempty := hne.mono (Finset.erase_subset cb s.subs)
    rw [SubInv, if_pos hsne] at h
    simp [hc, hne, h]

theorem subInv_applyOp {s : SubState} (h : SubInv s) (op : SubOp) :
    SubInv (applyOp s op) := by
  cases op with
  | sub cb => exact subInv_subscribe h cb
  | unsub cb => exact subInv_unsubscribe h cb

theorem subInv_foldl (ops : List SubOp) :
    ∀ s : SubState, SubInv s → SubInv (ops.foldl applyOp s) := by
  induction ops with
  | nil => intro s h; exact h
  | cons op rest ih =>
    intro s h
    exact ih (applyOp s op) (subInv_applyOp h op)

theorem subInv_runOps (ops : List SubOp) : SubInv (runOps ops) :=
  subInv_foldl ops SubState.init subInv_init

theorem unsubscribe_of_not_mem {s : SubState} (hInv : SubInv s) {cb : Nat}
    (h : cb ∉ s.subs) : s.unsubscribe cb = s := by
  unfold SubState.unsubscribe
  rw [Finset.erase_eq_of_not_mem h]
  by_cases hc : s.subs.card < 1
  · have h0 : s.subs = ∅ := Finset.card_eq_zero.mp (by omega)
    have hl : s.listeners = 0 := by
      rw [SubInv, h0] at hInv
      simpa using hInv
    simp only [if_pos hc]
    rw [← hl]
  · simp [hc]

theorem not_mem_unsubscribe (s : SubState) (cb : Nat) :
    cb ∉ (s.unsubscribe cb).subs := by
  unfold SubState.unsubscribe
  by_cases hc : (s.subs.erase cb).card < 1 <;>
    simp [hc, Finset.not_mem_erase]

theorem not_mem_applyOp {s : SubState} {cb : Nat} (hmem : cb ∉ s.subs)
    {op : SubOp} (hop : op ≠ SubOp.sub cb) : cb ∉ (applyOp s op).subs := by
  cases op with
  | sub cb₂ =>
    have hne : cb₂ ≠ cb := fun hcontra => hop (by rw [hcontra])
    simp [applyOp, SubState.subscribe, Finset.mem_insert]
    exact ⟨fun hcontra => hne hcontra.symm, hmem⟩
  | unsub cb₂ =>
    simp only [applyOp, SubState.unsubscribe]
    by_cases hc : (s.subs.erase cb₂).card < 1
    · simp only [if_pos hc]
      intro hcontra
      exact hmem (Finset.mem_of_mem_erase hcontra)
    · simp only [if_neg hc]
      intro hcontra
      exact hmem (Finset.mem_of_mem_erase hcontra)

theorem not_mem_foldl (cb : Nat) (ops : List SubOp) :
    (∀ op ∈ ops, op ≠ SubOp.sub cb) →
    ∀ s : SubState, cb ∉ s.subs → cb ∉ (ops.foldl applyOp s).subs := by
  induction ops with
  | nil => intro _ s h; exact h
  | cons op rest ih =>
    intro hops s h
    have hop : op ≠ SubOp.sub cb := hops op (List.mem_cons_self op rest)
    have hrest : ∀ op₂ ∈ rest, op₂ ≠ SubOp.sub cb :=
      fun op₂ hmem => hops op₂ (List.mem_cons_of_mem op hmem)
    exact ih hrest (applyOp s op) (not_mem_applyOp h hop)

/-!
## Claim theorems: C3, C9, C10
-/

/-- C3: for every finite sequence of subscribe and unsubscribe operations on a
createEventSubscription instance, the number of underlying IPC listeners
registered for its event name is always 0 or 1, and it is exactly 1 if and
only if at least one logical subscriber callback is currently attached. -/
theorem multiplexer_listener_invariant (ops : List SubOp) :
    (runOps ops).listeners ≤ 1 ∧
    ((runOps ops).listeners = 1 ↔ (runOps ops).subs.Nonempty) := by
  have h := subInv_runOps ops
  rw [SubInv] at h
  by_cases hne : (runOps ops).subs.Nonempty
  · rw [if_pos hne] at h
    exact ⟨le_of_eq h, by simp [h, hne]⟩
  · rw [if_neg hne] at h
    simp [h, hne]

/-- C9: invoking the same unsubscribe handle a second time, after any
interleaved subscribe/unsubscribe operations that do not re-subscribe the same
callback, leaves the subscriber set and the underlying listener registration
unchanged (the second invocation is a no-op, and the model is total, so it
never throws). -/
theorem unsubscribe_handle_idempotent (ops₁ ops₂ : List SubOp) (cb : Nat)
    (hops : ∀ op ∈ ops₂, op ≠ SubOp.sub cb) :
    runOps (ops₁ ++ SubOp.unsub cb :: (ops₂ ++ [SubOp.unsub cb])) =
    runOps (ops₁ ++ SubOp.unsub cb :: ops₂) := by
  unfold runOps
  rw [List.foldl_append, List.foldl_append, List.foldl_cons, List.foldl_cons,
    List.foldl_append]
  set s₁ := (ops₁.foldl applyOp SubState.init) with hs₁
  have hInv₁ : SubInv s₁ := subInv_foldl ops₁ SubState.init subInv_init
  have hInv₂ : SubInv (applyOp s₁ (SubOp.unsub cb)) :=
    subInv_applyOp hInv₁ (SubOp.unsub cb)
  have hInv₃ : SubInv (ops₂.foldl applyOp (applyOp s₁ (SubOp.unsub cb))) :=
    subInv_foldl ops₂ _ hInv₂
  have hmem : cb ∉ (applyOp s₁ (SubOp.unsub cb)).subs :=
    not_mem_unsubscribe s₁ cb
  have hmem₂ : cb ∉ (ops₂.foldl applyOp (applyOp s₁ (SubOp.unsub cb))).subs :=
    not_mem_foldl cb ops₂ hops _ hmem
  simp only [List.foldl_cons, List.foldl_nil]
  exact unsubscribe_of_not_mem hInv₃ hmem₂

/-- C9 witness: a concrete run where the handle for callback 0 is invoked a
second time after other subscribers churned. -/
theorem unsubscribe_handle_idempotent_witness :
    runOps ([SubOp.sub 0, SubOp.sub 1] ++
      SubOp.unsub 0 :: ([SubOp.sub 2, SubOp.unsub 1] ++ [SubOp.unsub 0])) =
    runOps ([SubOp.sub 0, SubOp.sub 1] ++
      SubOp.unsub 0 :: [SubOp.sub 2, SubOp.unsub 1]) :=
  unsubscribe_handle_idempotent [SubOp.sub 0, SubOp.sub 1]
    [SubOp.sub 2, SubOp.unsub 1] 0 (by decide)

theorem foldl_logsStep (events : List Nat) :
    ∀ acc : List Nat, acc.length ≤ 1000 →
      events.foldl logsStep acc = (events.reverse ++ acc).take 1000 := by
  induction events with
  | nil =>
    intro acc hacc
    simp [List.take_of_length_le hacc]
  | cons e rest ih =>
    intro acc hacc
    have hlen : ((e :: acc).take 1000).length ≤ 1000 := by
      simp [List.length_take]
    rw [List.foldl_cons]
    rw [show logsStep acc e = (e :: acc).take 1000 from rfl]
    rw [ih ((e :: acc).take 1000) hlen]
    rw [List.reverse_cons, List.append_assoc]
    rw [List.take_append_eq_append_take, List.take_append_eq_append_take,
      List.take_take]
    congr 2
    exact Nat.min_eq_left (Nat.sub_le 1000 rest.reverse.length)

/-- C10: the logs atom retains at most 1000 entries, newest first: folding the
incoming events gives exactly the reversed event list truncated to the first
1000 entries, so entry 0 is always the most recent event and older entries
beyond 1000 are discarded. -/
theorem logs_atom_bounded_newest_first (events : List Nat) :
    runLogs events = events.reverse.take 1000 ∧
    (runLogs events).length ≤ 1000 ∧
    (runLogs events).head? = events.getLast? := by
  have heq : runLogs events = events.reverse.take 1000 := by
    unfold runLogs
    rw [foldl_logsStep events [] (by simp)]
    simp
  refine ⟨heq, ?_, ?_⟩
  · rw [heq]
    simp [List.length_take]
  · rw [heq, ← List.head?_reverse]
    cases h : events.reverse with
    | nil => simp
    | cons x xs => simp [List.take_cons]

/-!
## Lemmas for debounce
-/

theorem debounce_coalesces_aux (delay : Nat) :
    ∀ (rest : List (Nat × Nat)) (p : Nat × Nat),
      List.Chain' (fun x y => y.1 < x.1 + delay) (p :: rest) →
      debounceFires delay (p :: rest) =
        [(((p :: rest).getLast (List.cons_ne_nil p rest)).1 + delay,
          ((p :: rest).getLast (List.cons_ne_nil p rest)).2)] := by
  intro rest
  induction rest with
  | nil =>
    intro p _
    obtain ⟨t, a⟩ := p
    simp [debounceFires, List.getLast]
  | cons q rest₂ ih =>
    intro p hch
    have hlt : q.1 < p.1 + delay := (List.chain'_cons.mp hch).1
    have hch₂ : List.Chain' (fun x y => y.1 < x.1 + delay) (q :: rest₂) :=
      (List.chain'_cons.mp hch).2
    obtain ⟨t, a⟩ := p
    obtain ⟨t₂, a₂⟩ := q
    have hnle : ¬ (t + delay ≤ t₂) := Nat.not_le.mpr hlt
    simp only [debounceFires, if_neg hnle, List.nil_append]
    rw [ih (t₂, a₂) hch₂]
    simp [List.getLast_cons]

theorem debounceFires_late_aux (delay u : Nat) :
    ∀ l : List (Nat × Nat), (∀ p ∈ l, p.1 < u) →
      ((debounceFires delay l).filter (fun f => u ≤ f.1)).length ≤ 1 ∧
      ∀ f ∈ (debounceFires delay l).filter (fun f => u ≤ f.1),
        some f = l.getLast?.map (fun p => (p.1 + delay, p.2)) := by
  intro l
  induction l with
  | nil =>
    intro _
    exact ⟨by simp [debounceFires], by simp [debounceFires]⟩
  | cons p rest ih =>
    intro hmem
    cases rest with
    | nil =>
      obtain ⟨t, a⟩ := p
      constructor
      · by_cases hu : u ≤ t + delay <;> simp [debounceFires, hu]
      · intro f hf
        simp only [debounceFires, List.mem_filter, List.mem_singleton] at hf
        simp [hf.1]
    | cons q rest₂ =>
      obtain ⟨t, a⟩ := p
      obtain ⟨t₂, a₂⟩ := q
      have hmem₂ : ∀ r ∈ (t₂, a₂) :: rest₂, r.1 < u :=
        fun r hr => hmem r (List.mem_cons_of_mem _ hr)
      have ht₂ : t₂ < u := hmem₂ (t₂, a₂) (List.mem_cons_self _ _)
      have hhead :
          (if t + delay ≤ t₂ then [(t + delay, a)] else []).filter
            (fun f => u ≤ f.1) = [] := by
        by_cases hle : t + delay ≤ t₂
        · have : ¬ u ≤ t + delay := by omega
          simp [hle, this]
        · simp [hle]
      have hsplit :
          (debounceFires delay ((t, a) :: (t₂, a₂) :: rest₂)).filter
              (fun f => u ≤ f.1) =
            (debounceFires delay ((t₂, a₂) :: rest₂)).filter
              (fun f => u ≤ f.1) := by
        simp only [debounceFires, List.filter_append, hhead, List.nil_append]
      rw [hsplit, List.getLast?_cons_cons]
      exact ih hmem₂

/-!
## Claim theorems: C1 and C4 (counterexamples and amended forms), C7, C8
-/

/-- C1 counterexample: the claim states that when a Command fails no part of
the mutation is applied; but when in EventServiceImpl.create the private
close step succeeds and the subsequent create step fails, the command returns
failure while the close mutation stays applied, so the resulting state
differs from the starting state. Only the invalidation notifier is untouched. -/
theorem create_failure_leaves_partial_mutation :
    (createCmd .success .failure EventState.start).2 = false ∧
    (createCmd .success .failure EventState.start).1.activeClosed = true ∧
    (createCmd .success .failure EventState.start).1 ≠ EventState.start := by
  decide

/-- C1 amended: a Command that fails never advances the invalidation notifier
(nor the snapshot notifier), and a Command that succeeds has applied every
step of its mutation and advanced the notifier exactly once; but a failing
multi-step Command such as create may leave the mutations of its earlier
successful steps applied (only single-step update is all-or-nothing). -/
theorem command_notifier_discipline (c o u : StepOutcome) (s : EventState) :
    ((createCmd c o s).2 = false →
      (createCmd c o s).1.notifyCount = s.notifyCount ∧
      (createCmd c o s).1.snapshotCount = s.snapshotCount) ∧
    ((createCmd c o s).2 = true →
      (createCmd c o s).1.activeClosed = true ∧
      (createCmd c o s).1.eventCreated = true ∧
      (createCmd c o s).1.notifyCount = s.notifyCount + 1) ∧
    ((updateCmd u s).2 = false → (updateCmd u s).1 = s) ∧
    ((updateCmd u s).2 = true →
      (updateCmd u s).1.eventUpdated = true ∧
      (updateCmd u s).1.notifyCount = s.notifyCount + 1 ∧
      (updateCmd u s).1.snapshotCount = s.snapshotCount + 1) := by
  cases c <;> cases o <;> cases u <;> simp [createCmd, updateCmd]

/-- C1 witness: the amended theorem applied at the partial-failure input shows
that the notifier is not advanced there. -/
theorem command_notifier_discipline_witness :
    (createCmd .success .failure EventState.start).1.notifyCount =
      EventState.start.notifyCount :=
  ((command_notifier_discipline .success .failure .success
    EventState.start).1 rfl).1

/-- C4 counterexample: with a single invalidation signal at t = 0, unmount at
t = 100 and the default 300ms debounce delay, the pending debounce timer is
not cleared by the onMount cleanup and the refetch it scheduled still
executes at t = 300, after the last subscriber detached. -/
theorem pending_debounce_timer_fires_after_unmount :
    lateRefetches 300 [(0, 0)] 100 = [(300, 0)] ∧ 100 ≤ 300 := by
  decide

/-- C4 amended: after the last subscriber detaches the underlying listener is
released, so signals from the unmount time on are never delivered; but a
debounce timer pending at detach time is not cleared, so at most one refetch
(the one scheduled by the last signal delivered before unmount) may still
execute at or after the unmount time. -/
theorem late_refetch_at_most_one (delay : Nat) (signals : List (Nat × Nat))
    (unmountAt : Nat) :
    (lateRefetches delay signals unmountAt).length ≤ 1 ∧
    ∀ f ∈ lateRefetches delay signals unmountAt,
      some f = (deliveredCalls signals unmountAt).getLast?.map
        (fun p => (p.1 + delay, p.2)) := by
  have hdeliv : ∀ p ∈ deliveredCalls signals unmountAt, p.1 < unmountAt :=
    fun p hp => by
      have := List.of_mem_filter hp
      simpa using this
  exact debounceFires_late_aux delay unmountAt
    (deliveredCalls signals unmountAt) hdeliv

/-- C4 witness: the amended theorem applied to the concrete trace shows the
single late refetch is the last delivered signal's timer. -/
theorem late_refetch_at_most_one_witness :
    some ((300 : Nat), (0 : Nat)) =
      (deliveredCalls [(0, 0)] 100).getLast?.map
        (fun p => (p.1 + 300, p.2)) :=
  (late_refetch_at_most_one 300 [(0, 0)] 100).2 (300, 0) (by decide)

/-- C7: at the failing input (realValue stays the string Ann, an optimistic
update to Bob is applied at a later timestamp, the write then fails), the
hook keeps displaying the optimistic value Bob instead of reverting to the
confirmed realValue Ann: the real side's memoized timestamp never advances,
so the greater-versioned optimistic value keeps winning. -/
theorem optimistic_value_retained_on_failure :
    hookValue (afterFailedUpdate
      (updateOptimistically 1 "Bob" (initOptimistic 0 "Ann"))) = "Bob" ∧
    ("Bob" : String) ≠ "Ann" := by
  decide

/-- C8: for N at least 1 invalidation signals where each gap between
consecutive signals is strictly less than the debounce delay, exactly one
refetch fires; it runs one full delay after the last signal and carries the
last signal's arguments. -/
theorem debounce_coalesces (delay : Nat) (calls : List (Nat × Nat))
    (hne : calls ≠ [])
    (hgaps : List.Chain' (fun x y => y.1 < x.1 + delay) calls) :
    debounceFires delay calls =
      [((calls.getLast hne).1 + delay, (calls.getLast hne).2)] := by
  match calls, hne with
  | p :: rest, _ => exact debounce_coalesces_aux delay rest p hgaps

/-- C8 witness: three signals at 0, 100, 250 with a 300ms window collapse to
the single refetch at 550 carrying the last signal's argument. -/
theorem debounce_coalesces_witness :
    debounceFires 300 [(0, 10), (100, 20), (250, 30)] = [(550, 30)] :=
  debounce_coalesces 300 [(0, 10), (100, 20), (250, 30)] (by decide)
    (by simp [List.chain'_cons])

/-!
## Lemmas for header canonicalization
-/

theorem sortByName_of_sorted :
    ∀ {l : List HeaderPair}, List.Chain' (fun p q => p.1 < q.1) l →
      sortByName l = l := by
  intro l
  induction l with
  | nil => intro _; rfl
  | cons p rest ih =>
    intro h
    have hrest : List.Chain' (fun p q => p.1 < q.1) rest := h.tail
    rw [sortByName, ih hrest]
    cases rest with
    | nil => rfl
    | cons q rest₂ =>
      have hpq : p.1 < q.1 := (List.chain'_cons.mp h).1
      simp [insertByName, le_of_lt hpq]

theorem combinePairs_of_sorted :
    ∀ {l : List HeaderPair}, List.Chain' (fun p q => p.1 < q.1) l →
      combinePairs l = l := by
  intro l
  induction l using combinePairs.induct with
  | case1 => intro _; simp [combinePairs]
  | case2 p => intro _; simp [combinePairs]
  | case3 p q rest heq ih =>
    intro h
    have hpq : p.1 < q.1 := (List.chain'_cons.mp h).1
    exact absurd heq (ne_of_lt hpq)
  | case4 p q rest hne ih =>
    intro h
    rw [combinePairs]
    rw [if_neg hne, ih (List.chain'_cons.mp h).2]

theorem map_lowerName_of_lc :
    ∀ {l : List HeaderPair}, (∀ p ∈ l, lowerString p.1 = p.1) →
      l.map lowerName = l := by
  intro l
  induction l with
  | nil => intro _; rfl
  | cons p rest ih =>
    intro h
    have hp : lowerString p.1 = p.1 := h p (List.mem_cons_self p rest)
    have hrest : ∀ q ∈ rest, lowerString q.1 = q.1 :=
      fun q hq => h q (List.mem_cons_of_mem p hq)
    simp [lowerName, hp, ih hrest]

theorem canonEntries_of_canonical {l : List HeaderPair}
    (h : CanonicalEntries l) : canonEntries l = l := by
  unfold canonEntries
  rw [map_lowerName_of_lc h.2, sortByName_of_sorted h.1,
    combinePairs_of_sorted h.1]

/-!
## Claim theorems: C2, C5, C6
-/

/-- C2: evaluating the full client-to-router pipeline at the spec scenario.
For usr_1 the client observes 200 with the user body; but for usr_404 the
router produces 404 while the client observes 200, because the spread in the
envelope returned by ipcMain.handle picks up no status from the Response (its
fields are prototype accessors), so Response.json on the client rebuilds the
response with the default status 200. The claim that the router's status
survives the envelope fails at usr_404. -/
theorem envelope_drops_status :
    clientFetch usersSvc "/users/usr_1" =
      ⟨200, .userBody ⟨"usr_1", "Ann"⟩⟩ ∧
    dispatch usersSvc (pathOfUrl (ORIGIN ++ "/users/usr_404")) =
      ⟨404, .errBody "Not found"⟩ ∧
    clientFetch usersSvc "/users/usr_404" = ⟨200, .errBody "Not found"⟩ := by
  decide

/-- C5: serializing a RequestDescriptor into the IPC tuple and decoding it on
the main side yields the same path, method, body, and a headers object
equivalent to the one the descriptor denotes; and serializeHeader preserves
the pair order of every supported HeadersInit shape (a Headers instance's
entries sequence, an array of pairs, a plain object's insertion order). -/
theorem request_roundtrip_preserves_descriptor (r : RequestDescriptor)
    (h : WellFormedInit r.headers) :
    decodeIpcArgs (encodeIpcArgs r) = clientView r ∧
    (∀ pairs, serializeHeader (some (.pairList pairs)) = pairs) ∧
    (∀ fields, serializeHeader (some (.record fields)) = fields) ∧
    (∀ entries, serializeHeader (some (.headersObj entries)) = entries) := by
  refine ⟨?_, fun _ => rfl, fun _ => rfl, fun _ => rfl⟩
  obtain ⟨url, method, headers, body⟩ := r
  have hh : canonEntries (serializeHeader headers) = effectiveEntries headers := by
    cases headers with
    | none => simp [serializeHeader, effectiveEntries, canonEntries,
        sortByName, combinePairs]
    | some shape =>
      cases shape with
      | headersObj entries => exact canonEntries_of_canonical h
      | pairList pairs => rfl
      | record fields => rfl
  simp [decodeIpcArgs, encodeIpcArgs, clientView, hh]

/-- C5 witness: a concrete descriptor whose headers are a (canonical) Headers
instance round-trips to the client-side view. -/
theorem request_roundtrip_preserves_descriptor_witness :
    decodeIpcArgs (encodeIpcArgs
      ⟨"http://internal.localhost/users", some "POST",
        some (.headersObj [("content-type", "application/json")]),
        some "payload"⟩) =
    clientView
      ⟨"http://internal.localhost/users", some "POST",
        some (.headersObj [("content-type", "application/json")]),
        some "payload"⟩ :=
  (request_roundtrip_preserves_descriptor _
    (by
      unfold WellFormedInit CanonicalEntries
      exact ⟨List.chain'_singleton _, by decide⟩)).1

/-- C6: every Query consumed through firstValueFromResult is bounded by an
explicit timeout, 5000ms when no option is given; when the observable
produces nothing within that bound the Result is the distinguished
QueryTimeoutError, which differs from the QueryError wrapping every
service-level failure, so a caller can retry on timeout only. -/
theorem query_timeout_distinguished (obs : ObsOutcome Nat)
    (opts : QueryOptions Nat)
    (h : emitsNothingWithin (opts.timeout.getD DEFAULT_TIMEOUT_MS) obs) :
    firstValueFromResult obs opts =
      .error (.queryTimeout (opts.timeout.getD DEFAULT_TIMEOUT_MS)) ∧
    (opts.timeout = none → opts.timeout.getD DEFAULT_TIMEOUT_MS = 5000) ∧
    ∀ cause,
      QueryFailure.queryTimeout (opts.timeout.getD DEFAULT_TIMEOUT_MS) ≠
        QueryFailure.queryError cause := by
  refine ⟨?_, ?_, ?_⟩
  · cases obs with
    | emitsAt t v =>
      rw [emitsNothingWithin] at h
      simp [firstValueFromResult, Nat.not_lt.mpr h]
    | errsAt t e =>
      rw [emitsNothingWithin] at h
      simp [firstValueFromResult, Nat.not_lt.mpr h]
    | completesEmptyAt t =>
      rw [emitsNothingWithin] at h
      simp [firstValueFromResult, Nat.not_lt.mpr h]
    | never => rfl
  · intro hnone
    simp [hnone, DEFAULT_TIMEOUT_MS]
  · intro cause hcontra
    exact QueryFailure.noConfusion hcontra

/-- C6 witness: an observable that never emits, consumed with empty options,
yields the QueryTimeoutError carrying the default 5000ms bound. -/
theorem query_timeout_distinguished_witness :
    firstValueFromResult (ObsOutcome.never : ObsOutcome Nat) {} =
      .error (.queryTimeout 5000) :=
  (query_timeout_distinguished .never {} trivial).1

end HonoElectron
